import Mathlib

/-!
Verification of the PoleSudBot workspace-orchestration tool against its
natural-language specification.  Shallow embedding: each relevant Python
function from the repository is translated into an executable Lean
definition; effects of external processes (git, gh, uv) and of the
filesystem are passed in explicitly as oracle values, and Python
exceptions are modelled with Except / Option.
-/

/-! ## ConcurrentCommand.execute (src/nbm.py, lines 84-108)

The worker for one repository either raises (any Exception leaking out of
future.result) or returns a Python dict, modelled as an association list
of string pairs.  A dict is truthy exactly when it is non-empty. -/

/-- Outcome of one worker call inside ConcurrentCommand.execute: either an
exception propagating out of future.result, or the returned dict. -/

inductive WorkerOut
  | raises
  | returns (d : List (String × String))
deriving DecidableEq

/-- The results mapping built by ConcurrentCommand.execute: a Python dict
from repository name to the worker's returned dict, modelled as an
association list with unique keys kept in insertion order. -/

abbrev ResMap := List (String × List (String × String))

/-- Python dict assignment: overwrite in place if the key is present,
otherwise append at the end. -/

def dictInsert (m : ResMap) (k : String) (v : List (String × String)) : ResMap :=
  if m.any (fun e => e.1 = k) then
    m.map (fun e => if e.1 = k then (k, v) else e)
  else m ++ [(k, v)]

/-- One iteration of the as_completed loop in ConcurrentCommand.execute:
the walrus test `if res := future.result()` stores the result only when it
is truthy (a non-empty dict), and the except-branch around future.result
logs the exception and stores nothing. -/

def collectOne (worker : String → WorkerOut) (m : ResMap) (p : String) : ResMap :=
  match worker p with
  | .raises => m
  | .returns d => if d ≠ [] then dictInsert m p d else m

/-- ConcurrentCommand.execute: fold the collection loop over all target
repository names, starting from the empty results dict (the empty-target
early return coincides with folding over the empty list). -/

def executeRun (paths : List String) (worker : String → WorkerOut) : ResMap :=
  paths.foldl (collectOne worker) []

/-! ## StateManager.write (src/nbm_core/state.py, lines 37-48)

The filesystem is reduced to the two files the method touches: the target
state file and its temporary sibling.  File contents are the serialized
JSON text; the payload argument below stands for json.dumps(state) of a
serializable state dict.  The oracle WriteEnv says which of the three
fallible steps (temp-file open and dump, lock acquisition, atomic
replace) succeed, and how many characters the dump managed to write
before an OSError when it fails.

The lock is portalocker.Lock(str(path), "w", timeout=5).  With mode w
the library rewrites the open mode to append, opens the target, acquires
the lock, and then truncates the target to zero bytes, so a successful
acquisition empties the target before the replace runs.  A failed
acquisition stops before the truncation and is modelled as leaving the
files unchanged. -/

/-- Contents of the two files touched by StateManager.write; none means
the file is absent. -/

structure FS3 where
  target : Option String
  temp : Option String
deriving DecidableEq

/-- Oracle for one run of StateManager.write: whether the temp-file dump,
the exclusive lock and the atomic replace succeed, and how far the dump
got when it fails. -/

structure WriteEnv where
  dumpOk : Bool
  dumpWritten : Nat
  lockOk : Bool
  replaceOk : Bool
deriving DecidableEq

/-- Python exceptions that StateManager.write can see: OSError from file
operations, and the portalocker LockException. -/

inductive PyExc
  | osError
  | lockError
deriving DecidableEq

/-- The except clause of StateManager.write catches exactly
portalocker.exceptions.LockException and OSError. -/

def writeCatches : PyExc → Bool
  | .osError => true
  | .lockError => true

/-- The finally clause: temp_path.unlink(missing_ok=True). -/

def unlinkTemp (fs : FS3) : FS3 := ⟨fs.target, none⟩

/-- The temp-file open plus json.dump: on success the temp file holds the
full payload; on an OSError it holds whatever prefix was written.  The
target file is untouched either way. -/

def dumpStep (env : WriteEnv) (payload : String) (fs0 : FS3) : Except (PyExc × FS3) FS3 :=
  if env.dumpOk then .ok ⟨fs0.target, some payload⟩
  else .error (.osError,
    ⟨fs0.target, some (String.mk (payload.data.take (min env.dumpWritten payload.data.length)))⟩)

/-- The try block of StateManager.write: dump to the temp file, acquire
the exclusive lock (which truncates the target to zero bytes once
acquired), then atomically replace the target with the temp file.  An
error carries the filesystem state at the moment it is raised: a lock
failure leaves the target untouched, but a replace failure happens after
the truncation, with the target already empty. -/

def writeBody (env : WriteEnv) (payload : String) (fs0 : FS3) : Except (PyExc × FS3) FS3 :=
  match dumpStep env payload fs0 with
  | .error pe => .error pe
  | .ok fs1 =>
    if env.lockOk then
      if env.replaceOk then .ok ⟨some payload, none⟩
      else .error (.osError, ⟨some "", fs1.temp⟩)
    else .error (.lockError, fs1)

/-- StateManager.write: run the try block; a caught exception is logged
and swallowed; the finally clause removes the temp file in every case.
The second component is the exception propagated to the caller, if any. -/

def stateWrite (env : WriteEnv) (payload : String) (fs0 : FS3) : FS3 × Option PyExc :=
  match writeBody env payload fs0 with
  | .ok fs1 => (unlinkTemp fs1, none)
  | .error (e, fse) =>
    if writeCatches e then (unlinkTemp fse, none) else (unlinkTemp fse, some e)

/-- The filesystem states visited after the dump phase of one run of
StateManager.write: on a successful lock acquisition the target is
truncated to zero bytes while the temp file holds the payload, then the
atomic replace installs the new content (or fails, leaving the empty
target) and the finally clause unlinks the temp file; a dump or lock
failure skips the truncation and only the finally clause runs. -/

def writeTail (env : WriteEnv) (payload : String) (fs0 : FS3) : List FS3 :=
  if env.dumpOk then
    if env.lockOk then
      if env.replaceOk then
        [⟨some "", some payload⟩, ⟨some payload, none⟩, ⟨some payload, none⟩]
      else [⟨some "", some payload⟩, ⟨some "", none⟩]
    else [⟨fs0.target, none⟩]
  else [⟨fs0.target, none⟩]

/-- Every filesystem state visited during one run of StateManager.write,
in order: the initial state, each partial prefix of the temp file as the
dump proceeds, then the post-dump states of writeTail (lock-acquisition
truncation, atomic replace when reached, finally-clause unlink).  A
crash at any point leaves the filesystem in one of these states. -/

def writeTrace (env : WriteEnv) (payload : String) (fs0 : FS3) : List FS3 :=
  let written := if env.dumpOk then payload.data.length else min env.dumpWritten payload.data.length
  let dumpStates := (List.range (written + 1)).map
    (fun i => (⟨fs0.target, some (String.mk (payload.data.take i))⟩ : FS3))
  (fs0 :: dumpStates) ++ writeTail env payload fs0

/-! ## String helpers shared by the embedded functions

Python string primitives are re-implemented over the character list so
that every definition evaluates by kernel reduction. -/

/-- The whitespace characters removed by Python str.strip with no
argument (the ASCII ones). -/

def isPySpace (c : Char) : Bool :=
  c = ' ' || c = '\t' || c = '\n' || c = '\r' || c = '\x0b' || c = '\x0c'

/-- Python str.strip with no argument. -/

def pyStrip (s : String) : String :=
  String.mk (((s.data.dropWhile isPySpace).reverse.dropWhile isPySpace).reverse)

/-- Python substring containment (the in operator). -/

def containsSub (sub : List Char) : List Char → Bool
  | [] => sub.isEmpty
  | c :: rest => sub.isPrefixOf (c :: rest) || containsSub sub rest

/-- Python substring containment on strings. -/

def strContains (s sub : String) : Bool := containsSub sub.data s.data

/-- The part of a string before the first occurrence of a separator (the
first element of a Python str.split). -/

def beforeSep (sep : List Char) : List Char → List Char
  | [] => []
  | c :: rest => if sep.isPrefixOf (c :: rest) then [] else c :: beforeSep sep rest

/-! ## process.run (src/nbm_core/process.py, lines 17-68)

The subprocess.run call is replaced by an oracle saying how the external
process behaved: the binary was missing (FileNotFoundError), the global
timeout elapsed (TimeoutExpired), or the process completed with an exit
code and captured output.  The quiet flag only affects logging and is
omitted. -/

/-- Behaviour of the underlying subprocess.run call. -/

inductive ProcOutcome
  | fnf
  | timedOut
  | completed (returncode : Int) (stdout stderr : String)
deriving DecidableEq

/-- The CmdResult union returned by process.run: a CompletedProcess or
the TimeoutExpired object handed back as ordinary data. -/

inductive CmdRes
  | completedProc (returncode : Int) (stdout stderr : String)
  | timeoutExpired (timeoutSecs : Nat)
deriving DecidableEq

/-- The uniform CommandError raised by process.run, carrying its
formatted message. -/

structure CommandErr where
  message : String
deriving DecidableEq

/-- Message for a missing executable, from the FileNotFoundError handler. -/

def fnfMsg (cmd : List String) : String :=
  "Command '" ++ cmd.headD "" ++ "' not found. Is it installed and in your system's PATH?"

/-- Message for an elapsed timeout, from the TimeoutExpired handler. -/

def timeoutMsg (cmd : List String) (timeoutSecs : Nat) : String :=
  "Command '" ++ String.intercalate " " cmd ++ "' timed out after "
    ++ toString timeoutSecs ++ " seconds."

/-- Message for a non-zero exit under check=True: details are the stripped
stderr when non-empty, otherwise the stripped stdout. -/

def nonZeroMsg (cmd : List String) (rc : Int) (sout serr : String) : String :=
  "Command '" ++ String.intercalate " " cmd ++ "' failed with exit code "
    ++ toString rc ++ ":\n" ++ (if pyStrip serr = "" then pyStrip sout else pyStrip serr)

/-- process.run: FileNotFoundError always raises CommandError; a timeout
raises only under check=True and is otherwise returned as data; a
non-zero exit raises only under check=True and is otherwise returned as
an ordinary CompletedProcess. -/

def procRun (cmd : List String) (timeoutSecs : Nat) (outcome : ProcOutcome)
    (check : Bool) : Except CommandErr CmdRes :=
  match outcome with
  | .fnf => .error ⟨fnfMsg cmd⟩
  | .timedOut =>
    if check then .error ⟨timeoutMsg cmd timeoutSecs⟩
    else .ok (.timeoutExpired timeoutSecs)
  | .completed rc sout serr =>
    if rc ≠ 0 ∧ check then .error ⟨nonZeroMsg cmd rc sout serr⟩
    else .ok (.completedProc rc sout serr)

/-! ## git.get_repo_name_from_url (src/nbm_core/git.py, lines 18-29)

Direct embedding of re.search applied to the anchored pattern: scan for
the leftmost position whose suffix is the literal github.com, a slash or
colon separator, a non-empty slash-free owner, a slash, and a non-empty
slash-free final segment running to the end of the string (the dollar
anchor also accepts the position just before one final newline, and the
optional lazy .git group strips one such suffix when at least one
character precedes it). -/

/-- The literal character sequence of the pattern prefix. -/

def ghLit : List Char := "github.com".data

/-- The one-slash split of the text after the separator: the owner part
before the single slash and the non-empty final segment after it, or
none when the text does not have exactly one slash with a non-empty
remainder. -/

def splitSeg : List Char → Option (List Char × List Char)
  | [] => none
  | c :: rest =>
    if c = '/' then
      if rest ≠ [] ∧ '/' ∉ rest then some ([], rest) else none
    else
      match splitSeg rest with
      | some (o, r) => some (c :: o, r)
      | none => none

/-- One lazy .git strip: remove a trailing .git only when at least one
character precedes it, as the lazy final group requires. -/

def stripGitSeg (r : List Char) : List Char :=
  if 4 < r.length ∧ r.drop (r.length - 4) = ['.', 'g', 'i', 't'] then
    r.take (r.length - 4)
  else r

/-- The repository group captured from the final segment: the dollar
anchor lets the match stop just before one final newline, and the lazy
engine prefers that shorter end, falling back to consuming the newline
itself when nothing precedes it. -/

def segRepo (s : List Char) : List Char :=
  if s.getLast? = some '\n' then
    if s.dropLast = [] then s else stripGitSeg s.dropLast
  else stripGitSeg s

/-- The pattern after the github.com literal: a slash or colon separator,
then a non-empty owner, a slash, and the final segment. -/

def tryAfter : List Char → Option (List Char × List Char)
  | [] => none
  | sep :: rest =>
    if sep = '/' ∨ sep = ':' then
      match splitSeg rest with
      | some (o, s) => if o ≠ [] then some (o, s) else none
      | none => none
    else none

/-- Attempt the pattern with the match starting exactly at the head of
cs. -/

def tryAt (cs : List Char) : Option (List Char × List Char) :=
  if ghLit.isPrefixOf cs then tryAfter (cs.drop ghLit.length) else none

/-- The re.search scan: try the pattern at each position from the left
and return the first match. -/

def searchGh : List Char → Option (List Char × List Char)
  | [] => none
  | c :: rest =>
    match tryAt (c :: rest) with
    | some p => some p
    | none => searchGh rest

/-- git.get_repo_name_from_url: the matched group is owner slash repo,
with the repo part given by the lazy final-segment capture. -/

def get_repo_name_from_url (url : String) : Option String :=
  match searchGh url.data with
  | some (o, s) => some (String.mk o ++ "/" ++ String.mk (segRepo s))
  | none => none

/-! ## git.get_default_branch (src/nbm_core/git.py, lines 32-59)

The gh query is an oracle: either the gh wrapper raises CommandError
(for instance a missing binary), or it returns the stripped stdout,
which is empty on a failed query since the call uses check=False.  The
json.loads library call is a second oracle mapping the output string to
a parsed JSON value or a decode error.  Python values are untyped, so
the embedded function returns the JSON value Python would return, with
the fallback being the JSON string main. -/

/-- Parsed Python JSON values. -/

inductive PyJson
  | null
  | jbool (b : Bool)
  | jnum (n : Int)
  | jstr (s : String)
  | jarr (xs : List PyJson)
  | jobj (kvs : List (String × PyJson))

/-- Python truthiness of a JSON value. -/

def truthy : PyJson → Bool
  | .null => false
  | .jbool b => b
  | .jnum n => n != 0
  | .jstr s => s ≠ ""
  | .jarr xs => !xs.isEmpty
  | .jobj kvs => !kvs.isEmpty

/-- The exceptions the try block of get_default_branch can raise. -/

inductive BranchErr
  | cmdErr
  | decodeErr
  | keyErr
  | typeErr

/-- Python subscripting data[k] with a string key: a KeyError on a dict
without the key, a TypeError on any non-dict value. -/

def subscriptJ (j : PyJson) (k : String) : Except BranchErr PyJson :=
  match j with
  | .jobj kvs =>
    match kvs.lookup k with
    | some v => .ok v
    | none => .error .keyErr
  | _ => .error .typeErr

/-- The try block of get_default_branch: call gh (whose CommandError
propagates into the block), test the output string for truthiness, parse
it, test the parsed value for truthiness, then take
data defaultBranchRef name by double subscript.  Returns some value on
the early return, none when control falls through to the final return
of main. -/

def branchTry (ghOut : Except Unit String) (loads : String → Except Unit PyJson) :
    Except BranchErr (Option PyJson) :=
  match ghOut with
  | .error _ => .error .cmdErr
  | .ok dataStr =>
    if dataStr ≠ "" then
      match loads dataStr with
      | .error _ => .error .decodeErr
      | .ok data =>
        if truthy data then
          match subscriptJ data "defaultBranchRef" with
          | .error e => .error e
          | .ok ref =>
            match subscriptJ ref "name" with
            | .error e => .error e
            | .ok v => .ok (some v)
        else .ok none
    else .ok none

/-- git.get_default_branch: every exception raised inside the try block
is caught by the two handlers (JSONDecodeError or KeyError, then the
catch-all Exception) and logged, and the function falls through to
return main. -/

def get_default_branch (ghOut : Except Unit String)
    (loads : String → Except Unit PyJson) : PyJson :=
  match branchTry ghOut loads with
  | .ok (some v) => v
  | .ok none => .jstr "main"
  | .error _ => .jstr "main"

/-! ## project.create_production_package.process_dependency
(src/nbm_core/project.py, lines 329-368)

A declared dependency value is either a tomlkit Table (an inline dict,
carrying its key set and its string form) or a plain string.  The
package-name to repository-name map built in step 1 is an association
list with the normalized package names as keys. -/

/-- A tomlkit dependency value: a Table with its keys and its str()
rendering, or a string item. -/

inductive TItem
  | table (keys : List String) (asStr : String)
  | strI (s : String)
deriving DecidableEq

/-- Name normalization used throughout the pipeline: underscores become
hyphens. -/

def normalizeName (s : String) : String :=
  String.mk (s.data.map (fun c => if c = '_' then '-' else c))

/-- The pinned production reference emitted for a local dependency. -/

def pinnedRef (name org repo branch : String) : String :=
  name ++ " @ git+https://github.com/" ++ org ++ "/" ++ repo ++ ".git@" ++ branch

/-- Python str.rstrip with a comma argument: drop trailing commas. -/

def rstripComma (s : String) : String :=
  String.mk ((s.data.reverse.dropWhile (fun c => c = ',')).reverse)

/-- The name part of a resolved local-file reference: the text before
the at separator, stripped. -/

def depNamePart (s : String) : String :=
  pyStrip (String.mk (beforeSep " @ ".data s.data))

/-- Case 2 and case 3 of process_dependency, applied to the string form
of the value: a resolved local-file reference (containing the file
scheme after an at separator) is looked up in the map by its normalized
name part and either pinned or omitted; any other string passes through
trimmed, with trailing commas removed, and is omitted when empty. -/

def processDepStr (pmap : List (String × String)) (org branch : String)
    (depStr : String) : Option String :=
  if strContains depStr " @ file://" then
    match pmap.lookup (normalizeName (depNamePart depStr)) with
    | some repo => some (pinnedRef (depNamePart depStr) org repo branch)
    | none => none
  else
    let cleaned := rstripComma (pyStrip depStr)
    if cleaned ≠ "" then some cleaned else none

/-- project.create_production_package.process_dependency: a Table value
with a path key is a local-path dependency and is resolved through the
map by the normalized declared name; otherwise the string form of the
value is processed. -/

def process_dependency (pmap : List (String × String)) (org branch : String)
    (depName : String) : TItem → Option String
  | .table keys asStr =>
    if "path" ∈ keys then
      match pmap.lookup (normalizeName depName) with
      | some repo => some (pinnedRef depName org repo branch)
      | none => none
    else processDepStr pmap org branch asStr
  | .strI s => processDepStr pmap org branch s

/-! ## project.remove_dependency (src/nbm_core/project.py, lines 160-240)

Step 1 reads the plugin's own pyproject.toml for the real package name
(oracle MetaOutcome); step 2 runs uv remove (oracle: per-name Except
whose error carries the CommandError message); step 3 rewrites the
workspace-member list of the root pyproject.toml (oracle: Except for the
read-and-parse, carrying the member list). -/

/-- What reading the plugin's own pyproject.toml yields: no file, an
unparsable file, or a parsed project section whose optional name field
is returned. -/

inductive MetaOutcome
  | noFile
  | parseErr
  | parsed (name : Option String)
deriving DecidableEq

/-- Step 1 of remove_dependency: the package name passed to uv remove,
from the plugin metadata when available, with the folder name as the
fallback, underscores normalized to hyphens either way. -/

def pkgNameToRemove (pkgName : String) (m : MetaOutcome) : String :=
  match m with
  | .noFile => normalizeName pkgName
  | .parseErr => normalizeName pkgName
  | .parsed nm => normalizeName (nm.getD pkgName)

/-- Result of remove_dependency in the model: the boolean return value,
whether the workspace-member cleanup step was reached, and the member
list written back (none when the file is left untouched). -/

structure RemoveOut where
  returned : Bool
  cleanupRan : Bool
  membersWritten : Option (List String)
deriving DecidableEq

/-- Step 3 of remove_dependency: read the root pyproject.toml, filter the
workspace-member list by the stripped entry, and write it back only when
an entry was removed; every exception is caught and warned about, and
the function returns True regardless. -/

def workspaceCleanup (pkgName srcDir : String) :
    Except Unit (List String) → RemoveOut
  | .error _ => ⟨true, true, none⟩
  | .ok ms =>
    let kept := ms.filter (fun mem => pyStrip mem ≠ srcDir ++ "/" ++ pkgName)
    if kept.length ≠ ms.length then ⟨true, true, some kept⟩
    else ⟨true, true, none⟩

/-- project.remove_dependency: run uv remove on the detected package
name; a CommandError whose message contains not found in dependencies is
tolerated with a warning and the cleanup still runs; any other
CommandError returns False at once, skipping the cleanup; then the
workspace-member cleanup runs and the function returns True. -/

def remove_dependency (pkgName srcDir : String) (m : MetaOutcome)
    (uvRemove : String → Except String Unit)
    (rootMembers : Except Unit (List String)) : RemoveOut :=
  match uvRemove (pkgNameToRemove pkgName m) with
  | .error msg =>
    if strContains msg "not found in dependencies" then
      workspaceCleanup pkgName srcDir rootMembers
    else ⟨false, false, none⟩
  | .ok _ => workspaceCleanup pkgName srcDir rootMembers

/-! ## project.setup_plugin_repo (src/nbm_core/project.py, lines 80-131)

The filesystem is the set of existing local paths (a list of path
strings); the outcomes of the external gh and git calls inside the try
block are an oracle record.  Each call either returns its stripped
stdout or raises CommandError; get_default_branch never raises (claim
C6), so only its resulting branch name appears.  The effect trace
records every external command issued and every directory removal. -/

/-- External commands issued by setup_plugin_repo. -/

inductive Eff
  | ghRepoView
  | ghRepoFork
  | gitCloneE
  | gitRemoteAddE
  | gitLsRemote
  | gitCheckoutE
  | gitFetchE
  | gitCheckoutBE
  | gitPushE
  | rmtreeE
deriving DecidableEq

/-- Oracle for the external calls of one setup_plugin_repo run. -/

structure SetupEnv where
  ghView : Except Unit String
  ghFork : Except Unit String
  gitClone : Except Unit String
  gitRemoteAdd : Except Unit String
  lsRemote : Except Unit String
  gitCheckoutDev : Except Unit String
  defaultBranch : String
  gitFetchUp : Except Unit String
  gitCheckoutB : Except Unit String
  gitPushU : Except Unit String

/-- Result of one setup_plugin_repo run: the returned status string and
path, the resulting filesystem, and the effect trace. -/

structure SetupOut where
  status : String
  path : Option String
  fs : List String
  effs : List Eff
deriving DecidableEq

/-- The Python str.split on slash, last element: the text after the last
slash. -/

def lastSlashSeg (s : String) : String :=
  String.mk ((s.data.reverse.takeWhile (fun c => c ≠ '/')).reverse)

/-- The except CommandError handler of setup_plugin_repo: remove the
partially created local directory when it exists, and return failed. -/

def setupFail (fsCur : List String) (lp : String) (effs : List Eff) : SetupOut :=
  if lp ∈ fsCur then
    ⟨"failed", none, fsCur.filter (fun q => q ≠ lp), effs ++ [Eff.rmtreeE]⟩
  else ⟨"failed", none, fsCur, effs⟩

/-- Steps 4 and 5 of setup_plugin_repo, after a successful clone:
register the upstream remote, look for the dev branch on the fork
remote, and either check it out or create it from the upstream default
branch and publish it. -/

def setupPost (env : SetupEnv) (fs1 : List String) (lp : String)
    (effs : List Eff) : SetupOut :=
  match env.gitRemoteAdd with
  | .error _ => setupFail fs1 lp (effs ++ [Eff.gitRemoteAddE])
  | .ok _ =>
    match env.lsRemote with
    | .error _ => setupFail fs1 lp (effs ++ [Eff.gitRemoteAddE, Eff.gitLsRemote])
    | .ok lsOut =>
      if lsOut ≠ "" then
        match env.gitCheckoutDev with
        | .error _ =>
          setupFail fs1 lp (effs ++ [Eff.gitRemoteAddE, Eff.gitLsRemote, Eff.gitCheckoutE])
        | .ok _ =>
          ⟨"success", some lp, fs1,
            effs ++ [Eff.gitRemoteAddE, Eff.gitLsRemote, Eff.gitCheckoutE]⟩
      else
        match env.gitFetchUp with
        | .error _ =>
          setupFail fs1 lp (effs ++ [Eff.gitRemoteAddE, Eff.gitLsRemote, Eff.gitFetchE])
        | .ok _ =>
          match env.gitCheckoutB with
          | .error _ =>
            setupFail fs1 lp
              (effs ++ [Eff.gitRemoteAddE, Eff.gitLsRemote, Eff.gitFetchE, Eff.gitCheckoutBE])
          | .ok _ =>
            match env.gitPushU with
            | .error _ =>
              setupFail fs1 lp
                (effs ++ [Eff.gitRemoteAddE, Eff.gitLsRemote, Eff.gitFetchE,
                  Eff.gitCheckoutBE, Eff.gitPushE])
            | .ok _ =>
              ⟨"success", some lp, fs1,
                effs ++ [Eff.gitRemoteAddE, Eff.gitLsRemote, Eff.gitFetchE,
                  Eff.gitCheckoutBE, Eff.gitPushE]⟩

/-- The try block of setup_plugin_repo: ensure the fork exists (query,
create when the view output is falsy), clone it (adding the local path
to the filesystem), then the post-clone steps; any CommandError falls to
the cleanup handler. -/

def setupBody (env : SetupEnv) (fs : List String) (lp : String) : SetupOut :=
  match env.ghView with
  | .error _ => setupFail fs lp [Eff.ghRepoView]
  | .ok viewOut =>
    if viewOut = "" then
      match env.ghFork with
      | .error _ => setupFail fs lp [Eff.ghRepoView, Eff.ghRepoFork]
      | .ok _ =>
        match env.gitClone with
        | .error _ => setupFail fs lp [Eff.ghRepoView, Eff.ghRepoFork, Eff.gitCloneE]
        | .ok _ =>
          setupPost env (fs ++ [lp]) lp [Eff.ghRepoView, Eff.ghRepoFork, Eff.gitCloneE]
    else
      match env.gitClone with
      | .error _ => setupFail fs lp [Eff.ghRepoView, Eff.gitCloneE]
      | .ok _ => setupPost env (fs ++ [lp]) lp [Eff.ghRepoView, Eff.gitCloneE]

/-- project.setup_plugin_repo: parse the URL (unparsable means failed
with no action), compute the canonical local path, return exists at once
when it is already present with no external command run, and otherwise
run the try block. -/

def setup_plugin_repo (env : SetupEnv) (pluginsDir url : String)
    (fs : List String) : SetupOut :=
  match get_repo_name_from_url url with
  | none => ⟨"failed", none, fs, []⟩
  | some repoName =>
    let lp := pluginsDir ++ "/" ++ lastSlashSeg repoName
    if lp ∈ fs then ⟨"exists", some lp, fs, []⟩
    else setupBody env fs lp

/-- Oracle for a first setup run that succeeds: the fork already exists,
the clone succeeds, and the dev branch is found on the fork remote. -/

def envFirstRun : SetupEnv :=
  ⟨.ok "acme/foo", .ok "", .ok "", .ok "", .ok "refs/heads/dev", .ok "", "main",
    .ok "", .ok "", .ok ""⟩

/-- Oracle for a second setup run, with arbitrary distinct outcomes to
show they are never consulted. -/

def envSecondRun : SetupEnv :=
  ⟨.error (), .error (), .error (), .error (), .error (), .error (), "main",
    .error (), .error (), .error ()⟩

/-! ## Theorems -/

theorem dictInsert_length (m : ResMap) (k : String) (v : List (String × String)) :
    (dictInsert m k v).length ≤ m.length + 1 := by
  unfold dictInsert
  split
  · simp
  · simp

theorem dictInsert_self (m : ResMap) (k : String) (v : List (String × String)) :
    (k, v) ∈ dictInsert m k v := by
  unfold dictInsert
  split
  · rename_i h
    rcases List.any_eq_true.mp h with ⟨e, he, hk⟩
    refine List.mem_map.mpr ⟨e, he, ?_⟩
    rw [if_pos (of_decide_eq_true hk)]
  · simp

theorem dictInsert_preserve (m : ResMap) (k : String) (v : List (String × String))
    (e : String × List (String × String)) (he : e ∈ m) (hk : e.1 ≠ k) :
    e ∈ dictInsert m k v := by
  unfold dictInsert
  split
  · refine List.mem_map.mpr ⟨e, he, ?_⟩
    rw [if_neg hk]
  · exact List.mem_append_left _ he

theorem dictInsert_mem (m : ResMap) (k : String) (v : List (String × String))
    (e : String × List (String × String)) (he : e ∈ dictInsert m k v) :
    e ∈ m ∨ e = (k, v) := by
  unfold dictInsert at he
  split at he
  · rcases List.mem_map.mp he with ⟨x, hx, hfx⟩
    by_cases hxk : x.1 = k
    · right
      rw [if_pos hxk] at hfx
      exact hfx.symm
    · left
      rw [if_neg hxk] at hfx
      exact hfx ▸ hx
  · rcases List.mem_append.mp he with h | h
    · exact Or.inl h
    · right
      simpa using h

theorem collectOne_raises (worker : String → WorkerOut) (m : ResMap) (p : String)
    (hw : worker p = .raises) : collectOne worker m p = m := by
  simp [collectOne, hw]

theorem collectOne_returns (worker : String → WorkerOut) (m : ResMap) (p : String)
    (d : List (String × String)) (hw : worker p = .returns d) :
    collectOne worker m p = if d ≠ [] then dictInsert m p d else m := by
  simp only [collectOne, hw]

theorem collectOne_length (worker : String → WorkerOut) (m : ResMap) (p : String) :
    (collectOne worker m p).length ≤ m.length + 1 := by
  unfold collectOne
  split
  · omega
  · split
    · exact dictInsert_length m _ _
    · omega

theorem foldl_collect_length (worker : String → WorkerOut) :
    ∀ (paths : List String) (m : ResMap),
      (paths.foldl (collectOne worker) m).length ≤ m.length + paths.length := by
  intro paths
  induction paths with
  | nil => simp
  | cons p rest ih =>
    intro m
    calc (List.foldl (collectOne worker) (collectOne worker m p) rest).length
        ≤ (collectOne worker m p).length + rest.length := ih _
      _ ≤ (m.length + 1) + rest.length :=
          Nat.add_le_add_right (collectOne_length worker m p) _
      _ = m.length + (p :: rest).length := by simp [Nat.add_comm, Nat.add_assoc, Nat.add_left_comm]

theorem foldl_collect_mem (worker : String → WorkerOut) :
    ∀ (paths : List String) (m : ResMap) (e : String × List (String × String)),
      e ∈ paths.foldl (collectOne worker) m →
      e ∈ m ∨ (e.1 ∈ paths ∧ worker e.1 = .returns e.2 ∧ e.2 ≠ []) := by
  intro paths
  induction paths with
  | nil =>
    intro m e he
    exact Or.inl he
  | cons p rest ih =>
    intro m e he
    rcases ih (collectOne worker m p) e he with h | h
    · rcases hw : worker p with _ | d
      · rw [collectOne_raises worker m p hw] at h
        exact Or.inl h
      · rw [collectOne_returns worker m p d hw] at h
        by_cases hd : d = []
        · rw [if_neg (by simp [hd])] at h
          exact Or.inl h
        · rw [if_pos hd] at h
          rcases dictInsert_mem m p d e h with h2 | h2
          · exact Or.inl h2
          · subst h2
            exact Or.inr ⟨List.mem_cons_self _ _, hw, hd⟩
    · exact Or.inr ⟨List.mem_cons_of_mem _ h.1, h.2⟩

theorem foldl_collect_persist (worker : String → WorkerOut) (q : String)
    (dq : List (String × String)) (hq : worker q = .returns dq) (_hdq : dq ≠ []) :
    ∀ (paths : List String) (m : ResMap), (q, dq) ∈ m →
      (q, dq) ∈ paths.foldl (collectOne worker) m := by
  intro paths
  induction paths with
  | nil =>
    intro m hm
    exact hm
  | cons p rest ih =>
    intro m hm
    refine ih (collectOne worker m p) ?_
    rcases hw : worker p with _ | d
    · rw [collectOne_raises worker m p hw]
      exact hm
    · rw [collectOne_returns worker m p d hw]
      by_cases hd : d = []
      · rw [if_neg (by simp [hd])]
        exact hm
      · rw [if_pos hd]
        by_cases hpq : p = q
        · subst hpq
          rw [hq] at hw
          cases hw
          exact dictInsert_self m p dq
        · exact dictInsert_preserve m p d (q, dq) hm (by simpa using Ne.symm hpq)

theorem foldl_collect_present (worker : String → WorkerOut) (q : String)
    (dq : List (String × String)) (hq : worker q = .returns dq) (hdq : dq ≠ []) :
    ∀ (paths : List String) (m : ResMap), q ∈ paths →
      (q, dq) ∈ paths.foldl (collectOne worker) m := by
  intro paths
  induction paths with
  | nil =>
    intro m hm
    cases hm
  | cons p rest ih =>
    intro m hm
    rcases List.mem_cons.mp hm with h | h
    · subst h
      refine foldl_collect_persist worker q dq hq hdq rest (collectOne worker m q) ?_
      rw [collectOne_returns worker m q dq hq, if_pos hdq]
      exact dictInsert_self m q dq
    · exact ih _ h

/-- Claim C1 (amended): for every repository list and worker,
ConcurrentCommand.execute returns a mapping with exactly one entry per
repository whose worker returned a truthy (non-empty) dict and no entry
for any other repository: the mapping has at most the repository count
of entries (not always exactly it), every entry comes from a repository
in the list whose worker returned that non-empty dict, and every
repository in the list whose worker returned a non-empty dict is present
with that dict as its entry. -/

theorem executeRun_size_and_provenance (paths : List String) (worker : String → WorkerOut) :
    (executeRun paths worker).length ≤ paths.length ∧
    (∀ e ∈ executeRun paths worker,
      e.1 ∈ paths ∧ worker e.1 = .returns e.2 ∧ e.2 ≠ []) ∧
    (∀ q dq, q ∈ paths → worker q = .returns dq → dq ≠ [] →
      (q, dq) ∈ executeRun paths worker) := by
  refine ⟨?_, ?_, ?_⟩
  · simpa using foldl_collect_length worker paths []
  · intro e he
    rcases foldl_collect_mem worker paths [] e he with h | h
    · cases h
    · exact h
  · intro q dq hq hwq hdq
    exact foldl_collect_present worker q dq hwq hdq paths [] hq

/-- Witness for the amended claim C1 at a concrete batch of one
repository whose worker returns a one-key dict: the size bound, the
provenance of its entry, and the presence of the entry itself. -/

theorem executeRun_size_and_provenance_witness :
    (executeRun ["a"] (fun _ => .returns [("status", "success")])).length ≤ 1 ∧
    ("a" ∈ (["a"] : List String) ∧
      (fun _ => WorkerOut.returns [("status", "success")]) "a"
        = WorkerOut.returns [("status", "success")] ∧
      ([("status", "success")] : List (String × String)) ≠ []) ∧
    ("a", [("status", "success")])
      ∈ executeRun ["a"] (fun _ => .returns [("status", "success")]) :=
  ⟨(executeRun_size_and_provenance ["a"] (fun _ => .returns [("status", "success")])).1,
   (executeRun_size_and_provenance ["a"] (fun _ => .returns [("status", "success")])).2.1
     ("a", [("status", "success")]) (by decide),
   (executeRun_size_and_provenance ["a"] (fun _ => .returns [("status", "success")])).2.2
     "a" [("status", "success")] (by decide) (by decide) (by decide)⟩

/-- Counterexample to claim C1 as stated: a batch over one repository
whose worker returns an empty dict yields an empty results mapping, not a
mapping of size one; the truthiness test in the collection loop drops the
entry. -/

theorem executeRun_not_always_full :
    (executeRun ["a"] (fun _ => .returns [])).length ≠ (["a"] : List String).length := by
  decide

/-- Claim C2 (amended): a worker that raises is caught and excluded from
the results mapping (rather than recorded as failed), and every other
repository still runs to completion: any repository whose worker returns
a non-empty dict appears in the mapping.  The batch never aborts. -/

theorem executeRun_isolation (paths : List String) (worker : String → WorkerOut)
    (p : String) (hp : worker p = .raises) :
    (executeRun paths worker).all (fun e => e.1 != p) = true ∧
    ∀ q dq, q ∈ paths → worker q = .returns dq → dq ≠ [] →
      (q, dq) ∈ executeRun paths worker := by
  constructor
  · refine List.all_eq_true.mpr ?_
    intro e he
    rcases foldl_collect_mem worker paths [] e he with h | h
    · cases h
    · have hne : e.1 ≠ p := by
        intro hep
        rw [hep, hp] at h
        cases h.2.1
      simpa using hne
  · intro q dq hq hwq hdq
    exact foldl_collect_present worker q dq hwq hdq paths [] hq

/-- Witness for the amended claim C2: five repositories, the worker for
the repository bar raises; bar is absent from the results and a normally
returning repository is present. -/

theorem executeRun_isolation_witness :
    (executeRun ["a", "b", "bar", "c", "d"]
        (fun p => if p = "bar" then .raises else .returns [("status", "success")])).all
        (fun e => e.1 != "bar") = true ∧
    ("a", [("status", "success")]) ∈ executeRun ["a", "b", "bar", "c", "d"]
        (fun p => if p = "bar" then .raises else .returns [("status", "success")]) :=
  ⟨(executeRun_isolation ["a", "b", "bar", "c", "d"]
      (fun p => if p = "bar" then .raises else .returns [("status", "success")])
      "bar" (by decide)).1,
   (executeRun_isolation ["a", "b", "bar", "c", "d"]
      (fun p => if p = "bar" then .raises else .returns [("status", "success")])
      "bar" (by decide)).2 "a" [("status", "success")] (by decide) (by decide) (by decide)⟩

/-- Counterexample to claim C2 as stated: among five repositories with the
worker raising for bar, the results mapping has four entries and none for
bar, so the raising repository is not recorded with a failed outcome. -/

theorem executeRun_raises_not_recorded :
    (executeRun ["a", "b", "bar", "c", "d"]
        (fun p => if p = "bar" then .raises else .returns [("status", "success")])).length = 4 ∧
    (executeRun ["a", "b", "bar", "c", "d"]
        (fun p => if p = "bar" then .raises else .returns [("status", "success")])).all
        (fun e => e.1 != "bar") = true := by
  decide

/-- Claim C3 (amended): during StateManager.write the target file holds
the complete prior state at every point up to lock acquisition, and at
every point of the run it holds the complete prior state, the complete
new state, or is truncated to zero bytes - the truncation window being
the portalocker mode-w acquisition that empties the target before the
atomic replace; the last state of every completed run has the temporary
file removed, whatever the outcome was. -/

theorem stateWrite_atomic (env : WriteEnv) (payload : String) (fs0 : FS3) :
    (∀ s ∈ writeTrace env payload fs0,
        s.target = fs0.target ∨ s.target = some payload ∨ s.target = some "") ∧
    (env.lockOk = false → ∀ s ∈ writeTrace env payload fs0, s.target = fs0.target) ∧
    (∀ sl, (writeTrace env payload fs0).getLast? = some sl → sl.temp = none) := by
  refine ⟨?_, ?_, ?_⟩
  · intro s hs
    unfold writeTrace at hs
    rcases List.mem_append.mp hs with h | h
    · rcases List.mem_cons.mp h with h1 | h1
      · subst h1
        exact Or.inl rfl
      · rcases List.mem_map.mp h1 with ⟨i, _, hi⟩
        subst hi
        exact Or.inl rfl
    · unfold writeTail at h
      split at h
      · split at h
        · split at h
          · simp only [List.mem_cons, List.not_mem_nil, or_false] at h
            rcases h with h | h | h <;> subst h
            · exact Or.inr (Or.inr rfl)
            · exact Or.inr (Or.inl rfl)
            · exact Or.inr (Or.inl rfl)
          · simp only [List.mem_cons, List.not_mem_nil, or_false] at h
            rcases h with h | h <;> subst h
            · exact Or.inr (Or.inr rfl)
            · exact Or.inr (Or.inr rfl)
        · simp only [List.mem_cons, List.not_mem_nil, or_false] at h
          subst h
          exact Or.inl rfl
      · simp only [List.mem_cons, List.not_mem_nil, or_false] at h
        subst h
        exact Or.inl rfl
  · intro hlock s hs
    unfold writeTrace at hs
    rcases List.mem_append.mp hs with h | h
    · rcases List.mem_cons.mp h with h1 | h1
      · subst h1
        rfl
      · rcases List.mem_map.mp h1 with ⟨i, _, hi⟩
        subst hi
        rfl
    · unfold writeTail at h
      split at h
      · rw [if_neg (by simp [hlock])] at h
        simp only [List.mem_cons, List.not_mem_nil, or_false] at h
        subst h
        rfl
      · simp only [List.mem_cons, List.not_mem_nil, or_false] at h
        subst h
        rfl
  · intro sl hsl
    unfold writeTrace writeTail at hsl
    split at hsl
    · split at hsl
      · split at hsl <;>
          · simp only [List.getLast?_append_cons, List.getLast?_cons_cons,
              List.getLast?_singleton, Option.some.injEq] at hsl
            rw [← hsl]
      · simp only [List.getLast?_append_cons, List.getLast?_cons_cons,
          List.getLast?_singleton, Option.some.injEq] at hsl
        rw [← hsl]
    · simp only [List.getLast?_append_cons, List.getLast?_cons_cons,
        List.getLast?_singleton, Option.some.injEq] at hsl
      rw [← hsl]

/-- Witness for the amended claim C3 at concrete runs: a mid-dump state
of a failing dump keeps the prior target; a lock failure keeps the prior
target at every point; and the last state of a completed run has the
temp file removed. -/

theorem stateWrite_atomic_witness :
    ((⟨some "old", some "n"⟩ : FS3) ∈
        writeTrace ⟨false, 1, true, true⟩ "new" ⟨some "old", none⟩ ∧
      ((⟨some "old", some "n"⟩ : FS3).target = (⟨some "old", none⟩ : FS3).target ∨
        (⟨some "old", some "n"⟩ : FS3).target = some "new" ∨
        (⟨some "old", some "n"⟩ : FS3).target = some "")) ∧
    ((⟨true, 0, false, true⟩ : WriteEnv).lockOk = false ∧
      (⟨some "old", none⟩ : FS3) ∈
        writeTrace ⟨true, 0, false, true⟩ "new" ⟨some "old", none⟩ ∧
      (⟨some "old", none⟩ : FS3).target = (⟨some "old", none⟩ : FS3).target) ∧
    ((writeTrace ⟨false, 1, true, true⟩ "new" ⟨some "old", none⟩).getLast?
        = some ⟨some "old", none⟩ ∧
      (⟨some "old", none⟩ : FS3).temp = none) :=
  ⟨⟨by decide,
    (stateWrite_atomic ⟨false, 1, true, true⟩ "new" ⟨some "old", none⟩).1
      ⟨some "old", some "n"⟩ (by decide)⟩,
   ⟨by decide, by decide,
    (stateWrite_atomic ⟨true, 0, false, true⟩ "new" ⟨some "old", none⟩).2.1
      (by decide) ⟨some "old", none⟩ (by decide)⟩,
   ⟨by decide,
    (stateWrite_atomic ⟨false, 1, true, true⟩ "new" ⟨some "old", none⟩).2.2
      ⟨some "old", none⟩ (by decide)⟩⟩

/-- Counterexample to claim C3 as stated: the exclusive lock acquisition
(portalocker, mode w) truncates the target to zero bytes, so execution
stopping between lock acquisition and the final replace observes an
empty target that is neither the complete prior state nor the complete
new state. -/

theorem stateWrite_truncation_window :
    (⟨some "", some "new"⟩ : FS3) ∈
      writeTrace ⟨true, 0, true, true⟩ "new" ⟨some "old", none⟩ ∧
    (some "" : Option String) ≠ some "old" ∧ (some "" : Option String) ≠ some "new" := by
  decide

/-- Claim C10 (amended): for a serializable state, StateManager.write
never propagates an exception and the temp file is removed in every
case; the final target is the untouched prior content, the complete new
content, or truncated to empty; the prior content survives a failure
that happens before lock acquisition (dump OSError or lock timeout), but
an OS error in the atomic replace happens after the mode-w lock has
truncated the target, leaving it empty rather than with its previous
content. -/

theorem stateWrite_never_raises (env : WriteEnv) (payload : String) (fs0 : FS3) :
    (stateWrite env payload fs0).2 = none ∧
    (stateWrite env payload fs0).1.temp = none ∧
    ((stateWrite env payload fs0).1.target = fs0.target ∨
      (stateWrite env payload fs0).1.target = some payload ∨
      (stateWrite env payload fs0).1.target = some "") ∧
    (env.dumpOk = false → (stateWrite env payload fs0).1.target = fs0.target) ∧
    (env.dumpOk = true → env.lockOk = false →
      (stateWrite env payload fs0).1.target = fs0.target) ∧
    (env.dumpOk = true → env.lockOk = true → env.replaceOk = false →
      (stateWrite env payload fs0).1.target = some "") ∧
    (env.dumpOk = true → env.lockOk = true → env.replaceOk = true →
      (stateWrite env payload fs0).1.target = some payload) := by
  unfold stateWrite writeBody dumpStep
  rcases env with ⟨dumpOk, dumpWritten, lockOk, replaceOk⟩
  cases dumpOk <;> cases lockOk <;> cases replaceOk <;>
    simp [writeCatches, unlinkTemp]

/-- Witness for the amended claim C10 at concrete runs: a lock timeout is
swallowed with the prior target intact; a dump failure keeps the prior
target; a replace failure leaves the truncated empty target; a clean run
installs the new content. -/

theorem stateWrite_never_raises_witness :
    (stateWrite ⟨true, 0, false, true⟩ "new" ⟨some "old", none⟩).2 = none ∧
    (stateWrite ⟨true, 0, false, true⟩ "new" ⟨some "old", none⟩).1.temp = none ∧
    ((stateWrite ⟨true, 0, false, true⟩ "new" ⟨some "old", none⟩).1.target
        = (⟨some "old", none⟩ : FS3).target ∨
      (stateWrite ⟨true, 0, false, true⟩ "new" ⟨some "old", none⟩).1.target = some "new" ∨
      (stateWrite ⟨true, 0, false, true⟩ "new" ⟨some "old", none⟩).1.target = some "") ∧
    (stateWrite ⟨false, 0, true, true⟩ "new" ⟨some "old", none⟩).1.target
        = (⟨some "old", none⟩ : FS3).target ∧
    (stateWrite ⟨true, 0, false, true⟩ "new" ⟨some "old", none⟩).1.target
        = (⟨some "old", none⟩ : FS3).target ∧
    (stateWrite ⟨true, 0, true, false⟩ "new" ⟨some "old", none⟩).1.target = some "" ∧
    (stateWrite ⟨true, 0, true, true⟩ "new" ⟨some "old", none⟩).1.target = some "new" :=
  ⟨(stateWrite_never_raises ⟨true, 0, false, true⟩ "new" ⟨some "old", none⟩).1,
   (stateWrite_never_raises ⟨true, 0, false, true⟩ "new" ⟨some "old", none⟩).2.1,
   (stateWrite_never_raises ⟨true, 0, false, true⟩ "new" ⟨some "old", none⟩).2.2.1,
   (stateWrite_never_raises ⟨false, 0, true, true⟩ "new" ⟨some "old", none⟩).2.2.2.1
     (by decide),
   (stateWrite_never_raises ⟨true, 0, false, true⟩ "new" ⟨some "old", none⟩).2.2.2.2.1
     (by decide) (by decide),
   (stateWrite_never_raises ⟨true, 0, true, false⟩ "new" ⟨some "old", none⟩).2.2.2.2.2.1
     (by decide) (by decide) (by decide),
   (stateWrite_never_raises ⟨true, 0, true, true⟩ "new" ⟨some "old", none⟩).2.2.2.2.2.2
     (by decide) (by decide) (by decide)⟩

/-- Counterexample to claim C10 as stated: an OSError from the atomic
replace is caught, but the prior content is not left unchanged - the
mode-w lock acquisition has already truncated the target, so the run
ends with an empty target instead of the previous state. -/

theorem stateWrite_replace_failure_truncates :
    (stateWrite ⟨true, 0, true, false⟩ "new" ⟨some "old", none⟩).1.target = some "" ∧
    (stateWrite ⟨true, 0, true, false⟩ "new" ⟨some "old", none⟩).2 = none ∧
    (some "" : Option String) ≠ some "old" := by
  decide

/-- Claim C4 (amended): process.run raises on a missing binary regardless
of check; raises on a timeout only when check (mustSucceed) is true and
otherwise returns the timeout object as ordinary data; raises on a
non-zero exit exactly when check is true, with the message built from
the stripped stderr when non-empty and otherwise from the stripped
stdout; and under check=False a non-zero exit is returned as ordinary
result data. -/

theorem procRun_error_classification (cmd : List String) (t : Nat) (rc : Int)
    (sout serr : String) :
    procRun cmd t .fnf true = .error ⟨fnfMsg cmd⟩ ∧
    procRun cmd t .fnf false = .error ⟨fnfMsg cmd⟩ ∧
    procRun cmd t .timedOut true = .error ⟨timeoutMsg cmd t⟩ ∧
    procRun cmd t .timedOut false = .ok (.timeoutExpired t) ∧
    procRun cmd t (.completed rc sout serr) false = .ok (.completedProc rc sout serr) ∧
    procRun cmd t (.completed rc sout serr) true =
      (if rc = 0 then .ok (.completedProc rc sout serr)
       else .error ⟨"Command '" ++ String.intercalate " " cmd ++ "' failed with exit code "
         ++ toString rc ++ ":\n" ++ (if pyStrip serr = "" then pyStrip sout else pyStrip serr)⟩) := by
  refine ⟨rfl, rfl, rfl, rfl, by simp [procRun], ?_⟩
  by_cases h : rc = 0
  · simp [procRun, h]
  · simp [procRun, h, nonZeroMsg]

/-- Counterexample to claim C4 as stated: with mustSucceed=false an
elapsed timeout is not a failure; the TimeoutExpired object is returned
as ordinary result data. -/

theorem procRun_timeout_not_raised_unchecked :
    procRun ["uv", "lock"] 1200 .timedOut false = .ok (.timeoutExpired 1200) := by
  rfl

theorem splitSeg_sound :
    ∀ (b : List Char) (o s : List Char), splitSeg b = some (o, s) →
      b = o ++ '/' :: s ∧ '/' ∉ o ∧ '/' ∉ s ∧ s ≠ [] := by
  intro b
  induction b with
  | nil =>
    intro o s h
    cases h
  | cons c rest ih =>
    intro o s h
    unfold splitSeg at h
    by_cases hc : c = '/'
    · rw [if_pos hc] at h
      split at h
      · rename_i hr
        cases h
        exact ⟨by simp [hc], by simp, hr.2, hr.1⟩
      · cases h
    · rw [if_neg hc] at h
      cases hsp : splitSeg rest with
      | none =>
        rw [hsp] at h
        cases h
      | some pr =>
        obtain ⟨o2, s2⟩ := pr
        rw [hsp] at h
        cases h
        rcases ih o2 s hsp with ⟨hb, ho, hs2, hne⟩
        refine ⟨by rw [hb]; rfl, ?_, hs2, hne⟩
        intro hmem
        rcases List.mem_cons.mp hmem with h1 | h1
        · exact hc h1.symm
        · exact ho h1

theorem stripGitSeg_no_slash (r : List Char) (h : '/' ∉ r) : '/' ∉ stripGitSeg r := by
  unfold stripGitSeg
  split
  · intro hm
    exact h (List.mem_of_mem_take hm)
  · exact h

theorem stripGitSeg_ne_nil (r : List Char) (h : r ≠ []) : stripGitSeg r ≠ [] := by
  unfold stripGitSeg
  split
  · rename_i hc
    intro he
    have hlen := congrArg List.length he
    simp only [List.length_take, List.length_nil] at hlen
    omega
  · exact h

theorem segRepo_no_slash (s : List Char) (h : '/' ∉ s) : '/' ∉ segRepo s := by
  unfold segRepo
  split
  · split
    · exact h
    · refine stripGitSeg_no_slash _ ?_
      intro hm
      exact h (List.dropLast_subset s hm)
  · exact stripGitSeg_no_slash _ h

theorem segRepo_ne_nil (s : List Char) (h : s ≠ []) : segRepo s ≠ [] := by
  unfold segRepo
  split
  · split
    · exact h
    · rename_i hdl
      exact stripGitSeg_ne_nil _ hdl
  · exact stripGitSeg_ne_nil _ h

theorem tryAfter_sound (b : List Char) (o s : List Char) (h : tryAfter b = some (o, s)) :
    o ≠ [] ∧ s ≠ [] ∧ '/' ∉ o ∧ '/' ∉ s ∧
      ∃ sep, (sep = '/' ∨ sep = ':') ∧ b = sep :: (o ++ '/' :: s) := by
  cases b with
  | nil => cases h
  | cons sep rest =>
    simp only [tryAfter] at h
    split at h
    · rename_i hsep
      cases hsp : splitSeg rest with
      | none =>
        rw [hsp] at h
        cases h
      | some pr =>
        obtain ⟨o2, s2⟩ := pr
        simp only [hsp] at h
        by_cases hone : o2 ≠ []
        · rw [if_pos hone] at h
          cases h
          rcases splitSeg_sound rest _ _ hsp with ⟨hb, ho, hsx, hne⟩
          exact ⟨hone, hne, ho, hsx, sep, hsep, by rw [hb]⟩
        · rw [if_neg hone] at h
          cases h
    · cases h

theorem tryAt_sound (cs : List Char) (o s : List Char) (h : tryAt cs = some (o, s)) :
    o ≠ [] ∧ s ≠ [] ∧ '/' ∉ o ∧ '/' ∉ s ∧
      ∃ sep, (sep = '/' ∨ sep = ':') ∧ cs = ghLit ++ sep :: (o ++ '/' :: s) := by
  unfold tryAt at h
  split at h
  · rename_i hpre
    obtain ⟨t, ht⟩ := List.isPrefixOf_iff_prefix.mp hpre
    have hdrop : cs.drop ghLit.length = t := by
      rw [← ht]
      exact List.drop_left ghLit t
    rw [hdrop] at h
    rcases tryAfter_sound t o s h with ⟨h1, h2, h3, h4, sep, hsep, hteq⟩
    exact ⟨h1, h2, h3, h4, sep, hsep, by rw [← ht, hteq]⟩
  · cases h

theorem searchGh_sound :
    ∀ (cs : List Char) (o s : List Char), searchGh cs = some (o, s) →
      o ≠ [] ∧ s ≠ [] ∧ '/' ∉ o ∧ '/' ∉ s ∧
        ∃ pre sep, (sep = '/' ∨ sep = ':') ∧
          cs = pre ++ ghLit ++ sep :: (o ++ '/' :: s) := by
  intro cs
  induction cs with
  | nil =>
    intro o s h
    cases h
  | cons c rest ih =>
    intro o s h
    unfold searchGh at h
    cases hta : tryAt (c :: rest) with
    | none =>
      rw [hta] at h
      rcases ih o s h with ⟨h1, h2, h3, h4, pre, sep, hsep, heq⟩
      exact ⟨h1, h2, h3, h4, c :: pre, sep, hsep, by rw [heq]; rfl⟩
    | some p =>
      rw [hta] at h
      cases h
      rcases tryAt_sound (c :: rest) o s hta with ⟨h1, h2, h3, h4, sep, hsep, heq⟩
      exact ⟨h1, h2, h3, h4, [], sep, hsep, by rw [heq]; rfl⟩

/-- Claim C9 (amended): get_repo_name_from_url either returns none, or
returns owner slash repo where owner and the matched final segment are
non-empty and slash-free and the input decomposes as some prefix,
github.com, a slash or colon, owner, a slash, and that final segment
reaching the end of the input; the repo part strips one trailing .git
from the final segment (after ignoring one final newline) only when at
least one character precedes that suffix, so a final segment equal to
.git itself is returned unstripped.  When no such decomposition is
found the function returns none. -/

theorem get_repo_name_from_url_shape (url : String) :
    get_repo_name_from_url url = none ∨
    ∃ o s, searchGh url.data = some (o, s) ∧
      get_repo_name_from_url url = some (String.mk o ++ "/" ++ String.mk (segRepo s)) ∧
      o ≠ [] ∧ s ≠ [] ∧ '/' ∉ o ∧ '/' ∉ s ∧ '/' ∉ segRepo s ∧ segRepo s ≠ [] ∧
      ∃ pre sep, (sep = '/' ∨ sep = ':') ∧
        url.data = pre ++ ghLit ++ sep :: (o ++ '/' :: s) := by
  cases hs : searchGh url.data with
  | none =>
    left
    unfold get_repo_name_from_url
    rw [hs]
  | some p =>
    obtain ⟨o, s⟩ := p
    right
    rcases searchGh_sound url.data o s hs with ⟨h1, h2, h3, h4, pre, sep, hsep, heq⟩
    refine ⟨o, s, rfl, ?_, h1, h2, h3, h4,
      segRepo_no_slash s h4, segRepo_ne_nil s h2, pre, sep, hsep, heq⟩
    unfold get_repo_name_from_url
    rw [hs]

/-- Counterexample to claim C9 as stated: an input whose final segment is
exactly .git is returned with that suffix intact, because the lazy
final group must capture at least one character, so nothing is
stripped. -/

theorem get_repo_name_keeps_bare_git :
    get_repo_name_from_url "https://github.com/a/.git" = some "a/.git" := by
  decide

/-- Claim C6 (confirmed): get_default_branch always returns a value and
never propagates an error; in every failure mode of the hosting-service
query it returns the string main: when the gh wrapper raises, when the
query output is empty, when the output is unparsable, and when the
parsed JSON lacks the expected keys; otherwise it returns exactly the
name found under defaultBranchRef. -/

theorem get_default_branch_resilient (ghOut : Except Unit String)
    (loads : String → Except Unit PyJson) :
    (get_default_branch ghOut loads = .jstr "main" ∨
      ∃ v, branchTry ghOut loads = .ok (some v) ∧ get_default_branch ghOut loads = v) ∧
    (∀ loads2, get_default_branch (.error ()) loads2 = .jstr "main") ∧
    get_default_branch (.ok "") loads = .jstr "main" ∧
    (∀ s, get_default_branch (.ok s) (fun _ => .error ()) = .jstr "main") ∧
    (∀ s, get_default_branch (.ok s) (fun _ => .ok (.jobj [("x", .null)])) = .jstr "main") := by
  refine ⟨?_, fun loads2 => rfl, rfl, ?_, ?_⟩
  · unfold get_default_branch
    cases hb : branchTry ghOut loads with
    | ok ov =>
      cases ov with
      | some v => exact Or.inr ⟨v, rfl, rfl⟩
      | none => exact Or.inl rfl
    | error e => exact Or.inl rfl
  · intro s
    unfold get_default_branch branchTry
    by_cases hsv : s = ""
    · simp [hsv]
    · simp [hsv]
  · intro s
    unfold get_default_branch branchTry
    by_cases hsv : s = ""
    · simp [hsv]
    · simp only [hsv, if_neg, ne_eq, not_false_iff, if_pos]
      rfl

/-- Claim C5 (confirmed): every local-path dependency (a Table with a
path key) and every resolved local-file reference whose normalized name
maps to a discovered plugin repository is emitted as the pinned string
name at git+https github address with branch; one whose normalized name
has no mapping is omitted entirely, never emitted as a reference. -/

theorem process_dependency_pinning (pmap : List (String × String))
    (org branch depName : String) (keys : List String) (asStr s : String) :
    ("path" ∈ keys →
      (∀ repo, pmap.lookup (normalizeName depName) = some repo →
        process_dependency pmap org branch depName (.table keys asStr)
          = some (depName ++ " @ git+https://github.com/" ++ org ++ "/" ++ repo
              ++ ".git@" ++ branch)) ∧
      (pmap.lookup (normalizeName depName) = none →
        process_dependency pmap org branch depName (.table keys asStr) = none)) ∧
    (strContains s " @ file://" = true →
      (∀ repo,
        pmap.lookup (normalizeName (depNamePart s)) = some repo →
        process_dependency pmap org branch depName (.strI s)
          = some (depNamePart s ++ " @ git+https://github.com/"
              ++ org ++ "/" ++ repo ++ ".git@" ++ branch)) ∧
      (pmap.lookup (normalizeName (depNamePart s)) = none →
        process_dependency pmap org branch depName (.strI s) = none)) := by
  constructor
  · intro hpath
    constructor
    · intro repo hrepo
      simp only [process_dependency]
      rw [if_pos hpath, hrepo]
      rfl
    · intro hnone
      simp only [process_dependency]
      rw [if_pos hpath, hnone]
  · intro hfile
    constructor
    · intro repo hrepo
      simp only [process_dependency]
      unfold processDepStr
      rw [if_pos hfile, hrepo]
      rfl
    · intro hnone
      simp only [process_dependency]
      unfold processDepStr
      rw [if_pos hfile, hnone]

/-- Witness for claim C5 at concrete inputs: a mapped local-path
dependency is pinned, and an unmapped local-file reference is omitted. -/

theorem process_dependency_pinning_witness :
    ("path" ∈ ["path", "editable"] ∧
      process_dependency [("foo-bar", "foo_bar")] "acme" "dev" "foo_bar"
          (.table ["path", "editable"] "")
        = some ("foo_bar" ++ " @ git+https://github.com/" ++ "acme" ++ "/" ++ "foo_bar"
            ++ ".git@" ++ "dev")) ∧
    (strContains "baz @ file:///work/baz" " @ file://" = true ∧
      process_dependency [("foo-bar", "foo_bar")] "acme" "dev" "baz"
          (.strI "baz @ file:///work/baz") = none) :=
  ⟨⟨by decide,
    ((process_dependency_pinning [("foo-bar", "foo_bar")] "acme" "dev" "foo_bar"
        ["path", "editable"] "" "").1 (by decide)).1 "foo_bar" (by decide)⟩,
   ⟨by decide,
    ((process_dependency_pinning [("foo-bar", "foo_bar")] "acme" "dev" "baz"
        ["path", "editable"] "" "baz @ file:///work/baz").2 (by decide)).2 (by decide)⟩⟩

theorem workspaceCleanup_flags (pkgName srcDir : String)
    (rootMembers : Except Unit (List String)) :
    (workspaceCleanup pkgName srcDir rootMembers).returned = true ∧
    (workspaceCleanup pkgName srcDir rootMembers).cleanupRan = true := by
  cases rootMembers with
  | error e => exact ⟨rfl, rfl⟩
  | ok ms =>
    simp only [workspaceCleanup]
    constructor
    · split
      · rfl
      · rfl
    · split
      · rfl
      · rfl

/-- Claim C8 (amended): remove_dependency tolerates a not-found response
from uv remove as non-fatal, still running the workspace-member cleanup
and returning True; a successful uv remove also reaches the cleanup; a
failure inside the cleanup is caught and the call still returns True; but
any other uv-remove failure returns False without attempting the
workspace-member edit, so the two steps are not attempted independently
in that direction. -/

theorem remove_dependency_steps (pkgName srcDir : String) (m : MetaOutcome)
    (uvRemove : String → Except String Unit)
    (rootMembers : Except Unit (List String)) :
    (uvRemove (pkgNameToRemove pkgName m) = .ok () →
      (remove_dependency pkgName srcDir m uvRemove rootMembers).returned = true ∧
      (remove_dependency pkgName srcDir m uvRemove rootMembers).cleanupRan = true) ∧
    (∀ msg, uvRemove (pkgNameToRemove pkgName m) = .error msg →
      strContains msg "not found in dependencies" = true →
      (remove_dependency pkgName srcDir m uvRemove rootMembers).returned = true ∧
      (remove_dependency pkgName srcDir m uvRemove rootMembers).cleanupRan = true) ∧
    (∀ msg, uvRemove (pkgNameToRemove pkgName m) = .error msg →
      strContains msg "not found in dependencies" = false →
      remove_dependency pkgName srcDir m uvRemove rootMembers = ⟨false, false, none⟩) ∧
    (uvRemove (pkgNameToRemove pkgName m) = .ok () → rootMembers = .error () →
      remove_dependency pkgName srcDir m uvRemove rootMembers = ⟨true, true, none⟩) := by
  refine ⟨?_, ?_, ?_, ?_⟩
  · intro huv
    simp only [remove_dependency, huv]
    exact workspaceCleanup_flags pkgName srcDir rootMembers
  · intro msg huv hnf
    simp only [remove_dependency, huv]
    rw [if_pos hnf]
    exact workspaceCleanup_flags pkgName srcDir rootMembers
  · intro msg huv hnf
    simp only [remove_dependency, huv]
    rw [if_neg (by simp [hnf])]
  · intro huv hroot
    simp only [remove_dependency, huv]
    rw [hroot]
    rfl

/-- Witness for the amended claim C8 at concrete inputs: a not-found
failure from uv remove still reaches the cleanup and returns True, and a
successful removal with an unreadable root manifest still returns
True. -/

theorem remove_dependency_steps_witness :
    ((remove_dependency "foo" "plugins" .noFile
        (fun _ => .error "error: The dependency 'foo' was not found in dependencies")
        (.ok ["plugins/foo"])).returned = true ∧
      (remove_dependency "foo" "plugins" .noFile
        (fun _ => .error "error: The dependency 'foo' was not found in dependencies")
        (.ok ["plugins/foo"])).cleanupRan = true) ∧
    remove_dependency "foo" "plugins" .noFile (fun _ => .ok ()) (.error ())
      = ⟨true, true, none⟩ :=
  ⟨(remove_dependency_steps "foo" "plugins" .noFile
      (fun _ => .error "error: The dependency 'foo' was not found in dependencies")
      (.ok ["plugins/foo"])).2.1
      "error: The dependency 'foo' was not found in dependencies" (by rfl) (by decide),
   (remove_dependency_steps "foo" "plugins" .noFile (fun _ => .ok ())
      (.error ())).2.2.2 (by rfl) (by rfl)⟩

/-- Counterexample to claim C8 as stated: a uv-remove failure other than
not-found makes remove_dependency return False before the
workspace-member edit, so a failure of the dependency-resolution removal
does skip the edit of the root manifest. -/

theorem remove_dependency_skips_cleanup :
    remove_dependency "foo" "plugins" .noFile
        (fun _ => .error "error: network failure")
        (.ok ["plugins/foo", "plugins/bar"])
      = ⟨false, false, none⟩ := by
  decide

theorem setupFail_status (fsCur : List String) (lp : String) (effs : List Eff) :
    (setupFail fsCur lp effs).status = "failed" := by
  unfold setupFail
  split
  · rfl
  · rfl

theorem setupPost_success (env : SetupEnv) (fs1 : List String) (lp : String)
    (effs : List Eff) (h : (setupPost env fs1 lp effs).status = "success") :
    (setupPost env fs1 lp effs).path = some lp ∧ (setupPost env fs1 lp effs).fs = fs1 := by
  unfold setupPost at h ⊢
  cases hra : env.gitRemoteAdd with
  | error e =>
    simp only [hra] at h
    rw [setupFail_status] at h
    exact absurd h (by decide)
  | ok u1 =>
    simp only [hra] at h ⊢
    cases hls : env.lsRemote with
    | error e =>
      simp only [hls] at h
      rw [setupFail_status] at h
      exact absurd h (by decide)
    | ok lsOut =>
      simp only [hls] at h ⊢
      by_cases hne : lsOut ≠ ""
      · rw [if_pos hne] at h ⊢
        cases hcd : env.gitCheckoutDev with
        | error e =>
          simp only [hcd] at h
          rw [setupFail_status] at h
          exact absurd h (by decide)
        | ok u2 =>
          simp only [hcd]
          exact ⟨by simp, by simp⟩
      · rw [if_neg hne] at h ⊢
        cases hfu : env.gitFetchUp with
        | error e =>
          simp only [hfu] at h
          rw [setupFail_status] at h
          exact absurd h (by decide)
        | ok u3 =>
          simp only [hfu] at h ⊢
          cases hcb : env.gitCheckoutB with
          | error e =>
            simp only [hcb] at h
            rw [setupFail_status] at h
            exact absurd h (by decide)
          | ok u4 =>
            simp only [hcb] at h ⊢
            cases hpu : env.gitPushU with
            | error e =>
              simp only [hpu] at h
              rw [setupFail_status] at h
              exact absurd h (by decide)
            | ok u5 =>
              simp only [hpu]
              exact ⟨by simp, by simp⟩

theorem setupBody_success (env : SetupEnv) (fs : List String) (lp : String)
    (h : (setupBody env fs lp).status = "success") :
    (setupBody env fs lp).path = some lp ∧ (setupBody env fs lp).fs = fs ++ [lp] := by
  unfold setupBody at h ⊢
  cases hgv : env.ghView with
  | error e =>
    simp only [hgv] at h
    rw [setupFail_status] at h
    exact absurd h (by decide)
  | ok viewOut =>
    simp only [hgv] at h ⊢
    by_cases hv : viewOut = ""
    · rw [if_pos hv] at h ⊢
      cases hgf : env.ghFork with
      | error e =>
        simp only [hgf] at h
        rw [setupFail_status] at h
        exact absurd h (by decide)
      | ok u1 =>
        simp only [hgf] at h ⊢
        cases hgc : env.gitClone with
        | error e =>
          simp only [hgc] at h
          rw [setupFail_status] at h
          exact absurd h (by decide)
        | ok u2 =>
          simp only [hgc] at h ⊢
          exact setupPost_success env (fs ++ [lp]) lp _ h
    · rw [if_neg hv] at h ⊢
      cases hgc : env.gitClone with
      | error e =>
        simp only [hgc] at h
        rw [setupFail_status] at h
        exact absurd h (by decide)
      | ok u2 =>
        simp only [hgc] at h ⊢
        exact setupPost_success env (fs ++ [lp]) lp _ h

/-- Claim C7 (confirmed): with a parsable URL whose canonical local
plugin directory already exists, setup_plugin_repo returns the status
exists with that path, leaves the filesystem unchanged and issues no
external command at all (no clone, fork or other modifying operation);
consequently a second call after a successful first call with the same
URL returns exists with no duplicate clone. -/

theorem setup_plugin_repo_idempotent (env env2 : SetupEnv) (pluginsDir url : String)
    (fs : List String) :
    (∀ rn, get_repo_name_from_url url = some rn →
      (pluginsDir ++ "/" ++ lastSlashSeg rn) ∈ fs →
      setup_plugin_repo env pluginsDir url fs
        = ⟨"exists", some (pluginsDir ++ "/" ++ lastSlashSeg rn), fs, []⟩) ∧
    ((setup_plugin_repo env pluginsDir url fs).status = "success" →
      setup_plugin_repo env2 pluginsDir url (setup_plugin_repo env pluginsDir url fs).fs
        = ⟨"exists", (setup_plugin_repo env pluginsDir url fs).path,
            (setup_plugin_repo env pluginsDir url fs).fs, []⟩) := by
  constructor
  · intro rn hrn hmem
    unfold setup_plugin_repo
    simp only [hrn]
    rw [if_pos hmem]
  · intro h
    cases hrn : get_repo_name_from_url url with
    | none =>
      unfold setup_plugin_repo at h
      simp only [hrn] at h
      exact absurd h (by decide)
    | some rn =>
      by_cases hmem : (pluginsDir ++ "/" ++ lastSlashSeg rn) ∈ fs
      · have hsetup : setup_plugin_repo env pluginsDir url fs
            = ⟨"exists", some (pluginsDir ++ "/" ++ lastSlashSeg rn), fs, []⟩ := by
          unfold setup_plugin_repo
          simp only [hrn]
          rw [if_pos hmem]
        rw [hsetup] at h
        simp at h
      · have hsetup : setup_plugin_repo env pluginsDir url fs
            = setupBody env fs (pluginsDir ++ "/" ++ lastSlashSeg rn) := by
          unfold setup_plugin_repo
          simp only [hrn]
          rw [if_neg hmem]
        rw [hsetup] at h ⊢
        rcases setupBody_success env fs (pluginsDir ++ "/" ++ lastSlashSeg rn) h
          with ⟨hpath, hfs⟩
        rw [hpath, hfs]
        unfold setup_plugin_repo
        simp only [hrn]
        rw [if_pos (List.mem_append_right fs (List.mem_singleton.mpr rfl))]

/-- Witness for claim C7 at concrete inputs: the direct exists case, and
a successful first run followed by a second run that returns exists with
no effects even though every external call of the second oracle would
fail. -/

theorem setup_plugin_repo_idempotent_witness :
    setup_plugin_repo envSecondRun "plugins" "https://github.com/acme/foo.git"
        ["plugins/foo"]
      = ⟨"exists", some "plugins/foo", ["plugins/foo"], []⟩ ∧
    (setup_plugin_repo envFirstRun "plugins" "https://github.com/acme/foo.git" []).status
      = "success" ∧
    setup_plugin_repo envSecondRun "plugins" "https://github.com/acme/foo.git"
        (setup_plugin_repo envFirstRun "plugins" "https://github.com/acme/foo.git" []).fs
      = ⟨"exists",
          (setup_plugin_repo envFirstRun "plugins" "https://github.com/acme/foo.git" []).path,
          (setup_plugin_repo envFirstRun "plugins" "https://github.com/acme/foo.git" []).fs,
          []⟩ :=
  ⟨(setup_plugin_repo_idempotent envSecondRun envSecondRun "plugins"
      "https://github.com/acme/foo.git" ["plugins/foo"]).1 "acme/foo" (by decide) (by decide),
   by decide,
   (setup_plugin_repo_idempotent envFirstRun envSecondRun "plugins"
      "https://github.com/acme/foo.git" []).2 (by decide)⟩
